import Mathlib

/-!
Shallow embedding of `text_toolkit.py`, a small library of text-analysis
utilities: word-frequency counting, unique-word extraction, word
co-occurrence pairing, and line-wise text iteration.

Strings are modelled as `List Char`; Python dicts as insertion-ordered
association lists with unique keys; Python sets as `Finset`.  File input is
modelled as a list of already-read rows (chunks), since each operation merely
feeds each row to the same per-chunk worker it uses for literal text.
-/

/-- A character kept by the cleaning regex `[^A-Za-z0-9\s]` as alphanumeric. -/
def isAlnumAscii (c : Char) : Bool :=
  ('A' ≤ c && c ≤ 'Z') || ('a' ≤ c && c ≤ 'z') || ('0' ≤ c && c ≤ '9')

/-- A character matching Python's `\s` on ASCII text. -/
def isSpaceAscii (c : Char) : Bool :=
  c = ' ' || c = '\t' || c = '\n' || c = '\x0d' || c = '\x0c' || c = '\x0b'

/-- `re.sub(r'[^A-Za-z0-9\s]', '', data)`: delete every character that is
neither alphanumeric nor whitespace. -/
def cleanText (s : List Char) : List Char :=
  s.filter (fun c => isAlnumAscii c || isSpaceAscii c)

/-- ASCII lowercasing of one character, as `str.lower` acts on ASCII. -/
def lowerChar (c : Char) : Char :=
  if 'A' ≤ c ∧ c ≤ 'Z' then Char.ofNat (c.toNat + 32) else c

/-- The cleaning followed by `.lower()`, applied by every operation. -/
def normalizeText (s : List Char) : List Char :=
  (cleanText s).map lowerChar

/-- Helper for `str.split()`: accumulates the current word (reversed) and
splits on whitespace runs, dropping empty segments. -/
def splitWsAux : List Char → List Char → List (List Char)
  | [], acc => if acc.isEmpty then [] else [acc.reverse]
  | c :: rest, acc =>
    if isSpaceAscii c then
      if acc.isEmpty then splitWsAux rest []
      else acc.reverse :: splitWsAux rest []
    else splitWsAux rest (c :: acc)

/-- Python `str.split()` with no argument: split on whitespace runs. -/
def splitWs (s : List Char) : List (List Char) :=
  splitWsAux s []

/-- The Normalizer shared by all operations: clean, lowercase, split. -/
def normalizeWords (s : List Char) : List (List Char) :=
  splitWs (normalizeText s)

/-- One `freq_words[data] += 1` / `freq_words[data] = 1` step on the dict,
modelled on an insertion-ordered association list with unique keys. -/
def bump : List (List Char × Nat) → List Char → List (List Char × Nat)
  | [], w => [(w, 1)]
  | (k, v) :: rest, w =>
    if k = w then (k, v + 1) :: rest else (k, v) :: bump rest w

/-- `filter(filter_func, words)`.  `filter(None, ·)` keeps truthy elements,
i.e. non-empty strings. -/
def applyFilter : Option (List Char → Bool) → List (List Char) → List (List Char)
  | none, ws => ws.filter (fun w => !w.isEmpty)
  | some f, ws => ws.filter f

/-- The inner worker `count_word_frequency`: normalize a chunk, filter, and
fold each word into the accumulating dict. -/
def count_word_frequency (m : List (List Char × Nat)) (data : List Char)
    (filter_func : Option (List Char → Bool)) : List (List Char × Nat) :=
  (applyFilter filter_func (normalizeWords data)).foldl bump m

/-- `word_frequency` on literal text: the else-branch processes the raw text
as a single chunk against an empty dict. -/
def word_frequency (t : List Char) (filter_func : Option (List Char → Bool)) :
    List (List Char × Nat) :=
  count_word_frequency [] t filter_func

/-- `word_frequency` on a file already read as rows: each row is a chunk fed
to the same worker, sharing the accumulating dict. -/
def word_frequency_file (rows : List (List Char))
    (filter_func : Option (List Char → Bool)) : List (List Char × Nat) :=
  rows.foldl (fun m row => count_word_frequency m row filter_func) []

/-- Sum of the counts stored in the frequency dict. -/
def sumValues (m : List (List Char × Nat)) : Nat :=
  (m.map Prod.snd).sum

/-- The key set of the frequency dict, as an unordered set. -/
def keysFinset (m : List (List Char × Nat)) : Finset (List Char) :=
  (m.map Prod.fst).toFinset

/-- Dictionary lookup with default 0, for comparing dicts as maps. -/
def getCount (m : List (List Char × Nat)) (w : List Char) : Nat :=
  ((m.find? (fun p => p.1 == w)).map Prod.snd).getD 0

/-- The inner worker `count_unique_words`: union the chunk's normalized words
into the accumulating set. -/
def count_unique_words (s : Finset (List Char)) (data : List Char) :
    Finset (List Char) :=
  s ∪ (normalizeWords data).toFinset

/-- `unique_words` on literal text: one chunk against the empty set. -/
def unique_words (t : List Char) : Finset (List Char) :=
  count_unique_words ∅ t

/-- `unique_words` on a file already read as rows. -/
def unique_words_file (rows : List (List Char)) : Finset (List Char) :=
  rows.foldl count_unique_words ∅

/-- Normalization of one Python slice bound against length `n`: negative
bounds count from the end, and bounds are clamped to `[0, n]`. -/
def sliceIdx (n : Nat) (v : Int) : Nat :=
  if v < 0 then ((n : Int) + v).toNat else min v.toNat n

/-- Python `xs[a:b]` (step 1) on a list. -/
def pySlice {α : Type} (xs : List α) (a b : Int) : List α :=
  (xs.take (sliceIdx xs.length b)).drop (sliceIdx xs.length a)

/-- The inner worker `process_co_occurance`: normalize the chunk and, for each
`index in range(len(words) - window)`, append `tuple(words[index:index+window])`
to the accumulating list. -/
def process_co_occurance (acc : List (List (List Char))) (data : List Char)
    (window : Int) : List (List (List Char)) :=
  let ws := normalizeWords data
  (List.range ((ws.length : Int) - window).toNat).foldl
    (fun a index => a ++ [pySlice ws (Int.ofNat index) (Int.ofNat index + window)]) acc

/-- `word_co_occurrence_matrix` on literal text: one chunk against the empty
list. -/
def word_co_occurrence_matrix (t : List Char) (window : Int) :
    List (List (List Char)) :=
  process_co_occurance [] t window

/-- `word_co_occurrence_matrix` on a file already read as rows: each row is a
chunk, so windows never cross row boundaries. -/
def word_co_occurrence_matrix_file (rows : List (List Char)) (window : Int) :
    List (List (List Char)) :=
  rows.foldl (fun acc row => process_co_occurance acc row window) []

/-- The spec's description of the per-chunk co-occurrence output: the tuple
`words[i : i+window]` for each start index `i` from `0` to
`word_count - window` exclusive, in start-index order. -/
def spec_co_tuples (ws : List (List Char)) (window : Nat) :
    List (List (List Char)) :=
  (List.range (ws.length - window)).map fun i => (ws.drop i).take window

/-- The spec's per-chunk description for an arbitrary integer window:
`words[i : i+window]` (Python slicing) for each start index `i` in
`range(word_count - window)`, in start-index order. -/
def spec_co_tuples_int (ws : List (List Char)) (window : Int) :
    List (List (List Char)) :=
  (List.range (((ws.length : Int) - window).toNat)).map fun i =>
    pySlice ws (Int.ofNat i) (Int.ofNat i + window)

/-- Python `str.split('\n')`: split on each newline, keeping empty segments;
the empty string yields one empty segment. -/
def splitOnNl : List Char → List (List Char)
  | [] => [[]]
  | c :: rest =>
    let r := splitOnNl rest
    if c = '\n' then [] :: r
    else (c :: r.headI) :: r.tail

/-- `text_generator` on literal text: normalize the whole text, split on the
newline character, and yield every segment in order. -/
def text_generator (t : List Char) : List (List Char) :=
  splitOnNl (normalizeText t)

/-- Outcome of iterating over an opened file: the rows successfully read, and
`some msg` if an `IOError` with message `msg` interrupted the read. -/
structure FileRead where
  rows : List (List Char)
  fail : Option String

/-- `text_generator` on an existing file: lines read before a failure were
already yielded; an `IOError` is caught, its message is printed (second
component), and the generator simply stops.  The return type has no error
case: no exception reaches the caller. -/
def text_generator_onFile (r : FileRead) : List (List Char) × List String :=
  (r.rows, match r.fail with
    | none => []
    | some e => ["Error reading file: " ++ e])

/-- `unique_words` on an existing file: an `IOError` is re-raised wrapped in
an `"Error reading file: ..."` message, discarding the partial set. -/
def unique_words_onFile (r : FileRead) : Except String (Finset (List Char)) :=
  match r.fail with
  | some e => .error ("Error reading file: " ++ e)
  | none => .ok (unique_words_file r.rows)

/-- `word_co_occurrence_matrix` on an existing file: same wrapping re-raise
as `unique_words`. -/
def word_co_occurrence_onFile (r : FileRead) (window : Int) :
    Except String (List (List (List Char))) :=
  match r.fail with
  | some e => .error ("Error reading file: " ++ e)
  | none => .ok (word_co_occurrence_matrix_file r.rows window)

/-- A Python value passed as the primary argument: a string or a non-string. -/
inductive PyVal where
  | str : List Char → PyVal
  | int : Int → PyVal
  | boolv : Bool → PyVal
  | noneV : PyVal
deriving DecidableEq

/-- `isinstance(v, str)`. -/
def PyVal.isStr : PyVal → Bool
  | .str _ => true
  | _ => false

/-- The message of the `TypeError` raised on non-string input. -/
def typeErrMsg : String := "Only 'str' data with text or filepath allowed"

/-- `word_frequency` with its input-type guard (literal-text branch). -/
def word_frequency_checked (v : PyVal)
    (filter_func : Option (List Char → Bool)) :
    Except String (List (List Char × Nat)) :=
  match v with
  | .str t => .ok (word_frequency t filter_func)
  | _ => .error typeErrMsg

/-- `unique_words` with its input-type guard (literal-text branch). -/
def unique_words_checked (v : PyVal) : Except String (Finset (List Char)) :=
  match v with
  | .str t => .ok (unique_words t)
  | _ => .error typeErrMsg

/-- `word_co_occurrence_matrix` with its input-type guard (literal-text
branch); the input check precedes the window check. -/
def word_co_occurrence_checked (v : PyVal) (window : Int) :
    Except String (List (List (List Char))) :=
  match v with
  | .str t => .ok (word_co_occurrence_matrix t window)
  | _ => .error typeErrMsg

/-- `text_generator` with its input-type guard (literal-text branch). -/
def text_generator_checked (v : PyVal) : Except String (List (List Char)) :=
  match v with
  | .str t => .ok (text_generator t)
  | _ => .error typeErrMsg

theorem splitWsAux_ne_nil (s : List Char) :
    ∀ acc w, w ∈ splitWsAux s acc → w ≠ [] := by
  induction s with
  | nil =>
    intro acc w hw
    simp only [splitWsAux] at hw
    split at hw
    · simp at hw
    · next h =>
      simp only [List.mem_singleton] at hw
      subst hw
      simp only [ne_eq, List.reverse_eq_nil_iff]
      intro hacc
      simp [hacc] at h
  | cons c rest ih =>
    intro acc w hw
    simp only [splitWsAux] at hw
    split at hw
    · split at hw
      · exact ih _ _ hw
      · next h =>
        rcases List.mem_cons.mp hw with h1 | h2
        · subst h1
          simp only [ne_eq, List.reverse_eq_nil_iff]
          intro hacc
          simp [hacc] at h
        · exact ih _ _ h2
    · exact ih _ _ hw

theorem normalizeWords_ne_nil (t : List Char) :
    ∀ w ∈ normalizeWords t, w ≠ [] := by
  intro w hw
  exact splitWsAux_ne_nil _ _ _ hw

theorem applyFilter_none_eq (t : List Char) :
    applyFilter none (normalizeWords t) = normalizeWords t := by
  simp only [applyFilter]
  apply List.filter_eq_self.mpr
  intro w hw
  simp [List.isEmpty_iff, normalizeWords_ne_nil t w hw]

theorem bump_sumValues (m : List (List Char × Nat)) (w : List Char) :
    sumValues (bump m w) = sumValues m + 1 := by
  induction m with
  | nil => simp [bump, sumValues]
  | cons p rest ih =>
    obtain ⟨k, v⟩ := p
    simp only [bump]
    split
    · simp [sumValues, List.map_cons]; ring
    · simp only [sumValues, List.map_cons, List.sum_cons] at *
      omega

theorem foldl_bump_sumValues (ws : List (List Char)) :
    ∀ m, sumValues (ws.foldl bump m) = sumValues m + ws.length := by
  induction ws with
  | nil => intro m; simp
  | cons w rest ih =>
    intro m
    simp only [List.foldl_cons, List.length_cons, ih, bump_sumValues]
    omega

theorem bump_keysFinset (m : List (List Char × Nat)) (w : List Char) :
    keysFinset (bump m w) = insert w (keysFinset m) := by
  induction m with
  | nil => simp [bump, keysFinset]
  | cons p rest ih =>
    obtain ⟨k, v⟩ := p
    simp only [bump]
    split
    · next h => subst h; simp [keysFinset]
    · simp only [keysFinset, List.map_cons, List.toFinset_cons] at *
      rw [ih, Finset.Insert.comm]

theorem foldl_bump_keysFinset (ws : List (List Char)) :
    ∀ m, keysFinset (ws.foldl bump m) = keysFinset m ∪ ws.toFinset := by
  induction ws with
  | nil => intro m; simp
  | cons w rest ih =>
    intro m
    simp only [List.foldl_cons, List.toFinset_cons, ih, bump_keysFinset]
    ext x
    simp only [Finset.mem_union, Finset.mem_insert]
    tauto

theorem foldl_append_singleton {α β : Type} (f : β → α) (l : List β) :
    ∀ acc : List α, l.foldl (fun a i => a ++ [f i]) acc = acc ++ l.map f := by
  induction l with
  | nil => intro acc; simp
  | cons b rest ih => intro acc; simp [ih]

theorem pySlice_take_drop {α : Type} (xs : List α) (i w : Nat)
    (h : i + w ≤ xs.length) :
    pySlice xs (Int.ofNat i) (Int.ofNat i + (w : Int)) = (xs.drop i).take w := by
  simp only [Int.ofNat_eq_natCast]
  have h1 : sliceIdx xs.length (i : Int) = i := by
    simp only [sliceIdx]
    split
    · omega
    · have : ((i : Nat) : Int).toNat = i := by omega
      rw [this]; omega
  have h2 : sliceIdx xs.length ((i : Int) + (w : Int)) = i + w := by
    simp only [sliceIdx]
    split
    · omega
    · have : ((i : Int) + (w : Int)).toNat = i + w := by omega
      rw [this]; omega
  rw [pySlice, h1, h2, List.drop_take]
  congr 1
  omega

theorem process_co_occurance_eq_spec (acc : List (List (List Char)))
    (data : List Char) (w : Nat) :
    process_co_occurance acc data (w : Int) =
      acc ++ spec_co_tuples (normalizeWords data) w := by
  simp only [process_co_occurance, spec_co_tuples]
  have hn : (((normalizeWords data).length : Int) - (w : Int)).toNat =
      (normalizeWords data).length - w := by omega
  rw [hn, foldl_append_singleton
    (fun index : Nat => pySlice (normalizeWords data) (Int.ofNat index) (Int.ofNat index + (w : Int)))]
  congr 1
  apply List.map_congr_left
  intro i hi
  rw [List.mem_range] at hi
  exact pySlice_take_drop _ i w (by omega)

theorem splitOnNl_ne_nil (s : List Char) : splitOnNl s ≠ [] := by
  cases s with
  | nil => simp [splitOnNl]
  | cons c rest =>
    simp only [splitOnNl]
    split <;> simp

theorem splitOnNl_length (s : List Char) :
    (splitOnNl s).length = s.count '\n' + 1 := by
  induction s with
  | nil => simp [splitOnNl]
  | cons c rest ih =>
    simp only [splitOnNl, List.count_cons]
    split
    · next h =>
      subst h
      simp only [List.length_cons, ih]
      simp
    · next h =>
      have hne := splitOnNl_ne_nil rest
      have : (splitOnNl rest).tail.length = (splitOnNl rest).length - 1 := by
        simp [List.length_tail]
      simp only [List.length_cons, this, ih]
      have hb : (c == '\n') = false := by simp [h]
      rw [hb, if_neg Bool.false_ne_true]
      have hpos : 0 < (splitOnNl rest).length := List.length_pos.mpr hne
      omega

theorem keys_count_word_frequency (m : List (List Char × Nat)) (data : List Char) :
    keysFinset (count_word_frequency m data none) =
      count_unique_words (keysFinset m) data := by
  rw [count_word_frequency, applyFilter_none_eq, count_unique_words,
    foldl_bump_keysFinset]

theorem keys_word_frequency_file_aux (rows : List (List Char)) :
    ∀ m, keysFinset (rows.foldl (fun m row => count_word_frequency m row none) m) =
      rows.foldl count_unique_words (keysFinset m) := by
  induction rows with
  | nil => intro m; rfl
  | cons row rest ih =>
    intro m
    simp only [List.foldl_cons, ih, keys_count_word_frequency]

theorem co_file_foldl_eq_spec (w : Nat) (rows : List (List Char)) :
    ∀ acc, rows.foldl (fun a row => process_co_occurance a row (w : Int)) acc =
      acc ++ (rows.map fun row => spec_co_tuples (normalizeWords row) w).flatten := by
  induction rows with
  | nil => intro acc; simp
  | cons row rest ih =>
    intro acc
    rw [List.foldl_cons, process_co_occurance_eq_spec, ih]
    simp [List.map_cons, List.flatten_cons, List.append_assoc]

theorem length_le_sum_of_pos (l : List Nat) (h : ∀ x ∈ l, 1 ≤ x) :
    l.length ≤ l.sum := by
  induction l with
  | nil => simp
  | cons x rest ih =>
    simp only [List.length_cons, List.sum_cons]
    have hrest := ih (fun y hy => h y (List.mem_cons_of_mem x hy))
    have hx := h x (List.mem_cons_self x rest)
    omega

theorem sum_map_pred (l : List Nat) (h : ∀ x ∈ l, 1 ≤ x) :
    (l.map (fun x => x - 1)).sum = l.sum - l.length := by
  induction l with
  | nil => simp
  | cons x rest ih =>
    simp only [List.map_cons, List.sum_cons, List.length_cons]
    rw [ih (fun y hy => h y (List.mem_cons_of_mem x hy))]
    have hx : 1 ≤ x := h x (List.mem_cons_self x rest)
    have hr := length_le_sum_of_pos rest (fun y hy => h y (List.mem_cons_of_mem x hy))
    omega

/-- C1 counterexample: on "the quick brown fox" with window 2 the code does
not return the three claimed pairs — the loop bound `len(words) - window`
stops one pair short. -/
theorem co_occurrence_window2_scenario_refuted :
    word_co_occurrence_matrix "the quick brown fox".toList 2 ≠
      [["the".toList, "quick".toList], ["quick".toList, "brown".toList],
        ["brown".toList, "fox".toList]] := by
  decide

/-- C1 (amended): `word_co_occurrence_matrix("the quick brown fox", window=2)`
returns exactly `[("the","quick"), ("quick","brown")]`, in that order. -/
theorem co_occurrence_window2_scenario_amended :
    word_co_occurrence_matrix "the quick brown fox".toList 2 =
      [["the".toList, "quick".toList], ["quick".toList, "brown".toList]] := by
  decide

/-- C2 counterexample: the claimed map sends "a" to 1, but the code counts
"a" twice in "This is a test text. This test is only a test.". -/
theorem word_frequency_scenario_refuted :
    getCount (word_frequency "This is a test text. This test is only a test.".toList none)
      "a".toList ≠ 1 := by
  decide

/-- C2 (amended): `word_frequency("This is a test text. This test is only a
test.")` with no filter returns the map {this:2, is:2, a:2, test:3, text:1,
only:1} (listed in first-occurrence order). -/
theorem word_frequency_scenario_amended :
    word_frequency "This is a test text. This test is only a test.".toList none =
      [("this".toList, 2), ("is".toList, 2), ("a".toList, 2), ("test".toList, 3),
        ("text".toList, 1), ("only".toList, 1)] := by
  decide

/-- C3 counterexample: on "a b" (one chunk, two words, none empty) with
window 1 the returned list has length 1, not the word count 2. -/
theorem co_occurrence_window1_length_refuted :
    normalizeWords "a b".toList ≠ [] ∧
      (word_co_occurrence_matrix "a b".toList 1).length ≠
        (normalizeWords "a b".toList).length := by
  decide

/-- C3 (amended): when no chunk normalizes to zero words, the length of the
window-1 co-occurrence list is the total normalized word count MINUS the
number of chunks (each chunk of n words contributes n-1 length-1 tuples). -/
theorem co_occurrence_window1_length_amended (rows : List (List Char))
    (h : ∀ c ∈ rows, normalizeWords c ≠ []) :
    (word_co_occurrence_matrix_file rows 1).length =
      (rows.map fun c => (normalizeWords c).length).sum - rows.length := by
  have h1 : (1 : Int) = ((1 : Nat) : Int) := by norm_num
  rw [word_co_occurrence_matrix_file, h1, co_file_foldl_eq_spec]
  rw [List.nil_append, List.length_flatten]
  have hmap : (rows.map fun row => spec_co_tuples (normalizeWords row) 1).map List.length
      = rows.map fun row => (normalizeWords row).length - 1 := by
    rw [List.map_map]
    apply List.map_congr_left
    intro row _
    simp [spec_co_tuples]
  rw [hmap]
  have hcomp : (rows.map fun row => (normalizeWords row).length - 1) =
      (rows.map fun row => (normalizeWords row).length).map (fun x => x - 1) := by
    rw [List.map_map]
    rfl
  rw [hcomp, sum_map_pred]
  · rw [List.length_map]
  · intro x hx
    rw [List.mem_map] at hx
    obtain ⟨row, hrow, hxeq⟩ := hx
    have := h row hrow
    have hpos : 0 < (normalizeWords row).length := List.length_pos.mpr (by
      intro hnil
      exact this hnil)
    omega

/-- C3 witness for the amended statement at chunks ["a b", "c d e"]. -/
theorem co_occurrence_window1_length_amended_witness :
    (∀ c ∈ ["a b".toList, "c d e".toList], normalizeWords c ≠ []) ∧
      (word_co_occurrence_matrix_file ["a b".toList, "c d e".toList] 1).length =
        (["a b".toList, "c d e".toList].map fun c => (normalizeWords c).length).sum -
          (["a b".toList, "c d e".toList] : List (List Char)).length :=
  ⟨by decide, co_occurrence_window1_length_amended _ (by decide)⟩

/-- C4: for every integer window, the code emits per chunk exactly the Python
slices `words[i : i+window]` for each start index i from 0 to
(word_count - window) exclusive, appended in start-index order to the
accumulating list (for a natural window these are the clean
`(words.drop i).take window` tuples); a chunk with fewer words than the
window contributes nothing, and in particular
`word_co_occurrence_matrix("ab", window=3)` is empty. -/
theorem co_occurrence_emission_spec :
    (∀ (acc : List (List (List Char))) (data : List Char) (w : Int),
        process_co_occurance acc data w =
          acc ++ spec_co_tuples_int (normalizeWords data) w) ∧
    (∀ (acc : List (List (List Char))) (data : List Char) (w : Nat),
        process_co_occurance acc data (w : Int) =
          acc ++ spec_co_tuples (normalizeWords data) w) ∧
    (∀ (data : List Char) (w : Int),
        ((normalizeWords data).length : Int) < w →
          word_co_occurrence_matrix data w = []) ∧
    word_co_occurrence_matrix "ab".toList 3 = [] := by
  refine ⟨?_, process_co_occurance_eq_spec, ?_, by decide⟩
  · intro acc data w
    simp only [process_co_occurance, spec_co_tuples_int]
    rw [foldl_append_singleton
      (fun index : Nat =>
        pySlice (normalizeWords data) (Int.ofNat index) (Int.ofNat index + w))]
  · intro data w hlt
    simp only [word_co_occurrence_matrix, process_co_occurance]
    have h0 : ((((normalizeWords data).length : Int)) - w).toNat = 0 := by omega
    rw [h0]
    rfl

/-- C4 witness: the short-chunk hypothesis discharged at "ab" with the
integer window 5. -/
theorem co_occurrence_emission_spec_witness :
    ((normalizeWords "ab".toList).length : Int) < 5 ∧
      word_co_occurrence_matrix "ab".toList 5 = [] :=
  ⟨by decide, co_occurrence_emission_spec.2.2.1 "ab".toList 5 (by decide)⟩

/-- C5: for every literal text, and likewise for every file read as rows, the
set returned by unique_words equals the key set of the unfiltered
word_frequency map. -/
theorem unique_words_eq_frequency_keys :
    (∀ t : List Char, unique_words t = keysFinset (word_frequency t none)) ∧
    (∀ rows : List (List Char),
        unique_words_file rows = keysFinset (word_frequency_file rows none)) := by
  constructor
  · intro t
    rw [word_frequency, keys_count_word_frequency, unique_words]
    have : keysFinset [] = (∅ : Finset (List Char)) := rfl
    rw [this]
  · intro rows
    rw [word_frequency_file, keys_word_frequency_file_aux, unique_words_file]
    have : keysFinset [] = (∅ : Finset (List Char)) := rfl
    rw [this]

/-- C6: for every literal text the values of the unfiltered frequency map sum
to the number of normalized tokens of the text. -/
theorem frequency_values_sum_eq_token_count (t : List Char) :
    sumValues (word_frequency t none) = (normalizeWords t).length := by
  rw [word_frequency, count_word_frequency, applyFilter_none_eq,
    foldl_bump_sumValues]
  simp [sumValues]

/-- C7: when reading an existing file fails, text_generator yields the rows
read so far and prints the diagnostic, propagating no exception, while
unique_words and word_co_occurrence_matrix raise an IOError wrapping the
underlying cause. -/
theorem file_read_failure_asymmetry (r : FileRead) (e : String)
    (h : r.fail = some e) :
    text_generator_onFile r = (r.rows, ["Error reading file: " ++ e]) ∧
      unique_words_onFile r = .error ("Error reading file: " ++ e) ∧
      word_co_occurrence_onFile r 2 = .error ("Error reading file: " ++ e) := by
  refine ⟨?_, ?_, ?_⟩ <;>
    simp [text_generator_onFile, unique_words_onFile, word_co_occurrence_onFile, h]

/-- C7 witness: a one-row read interrupted by a "disk error". -/
theorem file_read_failure_asymmetry_witness :
    FileRead.fail ⟨["abc".toList], some "disk error"⟩ = some "disk error" ∧
      (text_generator_onFile ⟨["abc".toList], some "disk error"⟩ =
          (["abc".toList], ["Error reading file: " ++ "disk error"]) ∧
        unique_words_onFile ⟨["abc".toList], some "disk error"⟩ =
          .error ("Error reading file: " ++ "disk error") ∧
        word_co_occurrence_onFile ⟨["abc".toList], some "disk error"⟩ 2 =
          .error ("Error reading file: " ++ "disk error")) :=
  ⟨rfl, file_read_failure_asymmetry _ _ rfl⟩

/-- C8: every non-string input makes each of the four operations raise the
TypeError "Only 'str' data with text or filepath allowed". -/
theorem non_string_input_type_error (v : PyVal)
    (flt : Option (List Char → Bool)) (window : Int)
    (h : v.isStr = false) :
    word_frequency_checked v flt = .error typeErrMsg ∧
      unique_words_checked v = .error typeErrMsg ∧
      word_co_occurrence_checked v window = .error typeErrMsg ∧
      text_generator_checked v = .error typeErrMsg := by
  cases v with
  | str t => simp [PyVal.isStr] at h
  | int n => exact ⟨rfl, rfl, rfl, rfl⟩
  | boolv b => exact ⟨rfl, rfl, rfl, rfl⟩
  | noneV => exact ⟨rfl, rfl, rfl, rfl⟩

/-- C8 witness: the integer input 42 with window 2 and no filter. -/
theorem non_string_input_type_error_witness :
    (PyVal.int 42).isStr = false ∧
      (word_frequency_checked (PyVal.int 42) none = .error typeErrMsg ∧
        unique_words_checked (PyVal.int 42) = .error typeErrMsg ∧
        word_co_occurrence_checked (PyVal.int 42) 2 = .error typeErrMsg ∧
        text_generator_checked (PyVal.int 42) = .error typeErrMsg) :=
  ⟨rfl, non_string_input_type_error (PyVal.int 42) none 2 rfl⟩

/-- C9: on literal text the generator normalizes the whole text and splits on
the newline character, keeping empty segments (one more segment than there
are newlines in the normalized text); on "Hello World\nSecond Line" it yields
exactly ["hello world", "second line"]. -/
theorem text_generator_literal_newline_split :
    text_generator "Hello World\nSecond Line".toList =
        ["hello world".toList, "second line".toList] ∧
      ∀ t : List Char,
        (text_generator t).length = (normalizeText t).count '\n' + 1 := by
  refine ⟨by decide, ?_⟩
  intro t
  rw [text_generator, splitOnNl_length]

/-- C10: text_generator on the empty string yields exactly one element, the
empty string, while word_frequency on the empty string yields the empty map. -/
theorem text_generator_empty_string_yields_one :
    text_generator "".toList = [[]] ∧
      (text_generator "".toList).length = 1 ∧
      word_frequency "".toList none = [] := by
  refine ⟨by decide, by decide, by decide⟩
